import Mathlib

/-!
# Verification of the BPX container core (bpx-rs)

A shallow embedding, in Lean 4, of the parts of the BlockProject3D BPX
container library that the specification's claims are about:

* the in-memory section data buffer (src/core/data/memory.rs),
* the core decoder: section-header-table parsing and the section read
  pipeline (src/core/decoder.rs),
* the section table with its create / remove / load / open operations
  (src/core/section.rs),
* the legacy decoder (src/decoder.rs).

Machine integers (u8 / u32 / u64) are embedded as natural numbers; where
overflow matters the embedding makes it explicit (checked addition models
the overflow trap of a debug build, wrapping is `% 2^32`).  I/O against
the seekable backend is abstracted: a backend read of the section-header
table is a list of records, and the payload transfer of the read pipeline
is either an oracle function or a list of effects describing exactly which
codec is invoked with which parameters.

Modules of the repository that are not under src/ (core/header.rs,
core/compression, core/error.rs, core/data/mod.rs, utils.rs) are modelled
from the specification; every such definition carries a doc comment that
starts with `Modelled from the spec:`.
-/

/-- 2^32, the modulus of u32 arithmetic. -/
def U32MOD : Nat := 4294967296

/-- Checked u32 addition: `some (a + b)` when the sum fits in a u32, `none`
on overflow.  This is the semantics of Rust `+` on u32 in a build with
overflow checks (debug): overflow panics. -/
def checkedAddU32 (a b : Nat) : Option Nat :=
  if a + b < U32MOD then some (a + b) else none

/-- Wrapping u32 addition, `(a + b) % 2^32`. -/
def wrapAddU32 (a b : Nat) : Nat := (a + b) % U32MOD

/-- Outcome of running a piece of Rust code that may panic (arithmetic
overflow trap, indexing a missing map key) or return a recoverable error. -/
inductive RRes (ε α : Type) where
  | panicked : RRes ε α
  | error (e : ε) : RRes ε α
  | ok (a : α) : RRes ε α
deriving DecidableEq, Repr

/-- Modelled from the spec: flag bit `CHECK_WEAK = 0x01` (§6; core/header.rs
is not under src/). -/
def FLAG_CHECK_WEAK : Nat := 1

/-- Modelled from the spec: flag bit `CHECK_CRC32 = 0x02` (§6). -/
def FLAG_CHECK_CRC32 : Nat := 2

/-- Modelled from the spec: flag bit `COMPRESS_XZ = 0x04` (§6). -/
def FLAG_COMPRESS_XZ : Nat := 4

/-- Modelled from the spec: flag bit `COMPRESS_ZLIB = 0x08` (§6). -/
def FLAG_COMPRESS_ZLIB : Nat := 8

/-- Modelled from the spec: the section-header record (§3).  Fields are the
ones the decoder, the section table and the read pipeline consume:
`pointer` (u64 payload offset), `csize` (u32 on-disk size), `size`
(u32 uncompressed size), `chksum` (u32), `ty` (u8 type tag, named `btype`
in the legacy crate root), `flags` (u8 bitmask).  core/header.rs is not
under src/. -/
structure SectionHeader where
  pointer : Nat
  csize : Nat
  size : Nat
  chksum : Nat
  ty : Nat
  flags : Nat
deriving DecidableEq, Repr

/-- Modelled from the spec: the fields of the main header that the
section-header-table readers consume (§3, §6): `section_num` (u32) and
`chksum` (u32 aggregate).  core/header.rs is not under src/. -/
structure MainHeader where
  section_num : Nat
  chksum : Nat
deriving DecidableEq, Repr

/-- Modelled from the spec: §7 error kinds surfaced by `open`/`load`
(core/error.rs is not under src/). -/
inductive OpenError where
  | sectionInUse : OpenError
  | sectionNotLoaded : OpenError
deriving DecidableEq, Repr

/-- Modelled from the spec: §7 error kinds surfaced by the read pipeline
(core/error.rs is not under src/). -/
inductive ReadError where
  | badVersion : ReadError
  | badSignature : ReadError
  | checksum (computed expected : Nat) : ReadError
  | eos : ReadError
  | io : ReadError
  | inflate : ReadError
deriving DecidableEq, Repr

/-- Modelled from the spec: the core `Error` sum that
`SectionTable::load` returns, wrapping an `OpenError` or a `ReadError`
(core/error.rs is not under src/). -/
inductive CoreError where
  | openErr (e : OpenError) : CoreError
  | readErr (e : ReadError) : CoreError
deriving DecidableEq, Repr

/-- Modelled from the spec: errors of the legacy crate root used by
src/decoder.rs: `Checksum(computed, expected)`, `Unsupported(feature)`,
short read `Eos` (§7; the legacy error module is not under src/). -/
inductive LegacyError where
  | checksum (computed expected : Nat) : LegacyError
  | unsupported (s : String) : LegacyError
  | eos : LegacyError
deriving DecidableEq, Repr

/-! ## InMemorySection (src/core/data/memory.rs)

`InMemorySection` wraps a `Cursor<Vec<u8>>` plus a `cur_size` field.  The
cursor is embedded with its standard-library semantics: a position and a
byte vector; `read` copies from `min(pos, len)`, `write` zero-pads up to
`pos` and splices, `seek` moves the position and fails on a negative
target. -/

/-- The `Cursor<Vec<u8>>` backing an `InMemorySection`: a seek position
and the byte vector. -/
structure ByteCursor where
  pos : Nat
  inner : List Nat
deriving DecidableEq, Repr

/-- `Read for Cursor<Vec<u8>>`: read up to `n` bytes starting at
`min(pos, len)`, advancing the position by the number of bytes read. -/
def cursorRead (c : ByteCursor) (n : Nat) : List Nat × ByteCursor :=
  let start := min c.pos c.inner.length
  let bytes := (c.inner.drop start).take n
  (bytes, { c with pos := c.pos + bytes.length })

/-- `Write for Cursor<Vec<u8>>`: zero-pad the vector up to `pos` if it is
shorter, then overwrite/append `data` at `pos`, advancing the position to
the end of the written range.  Always succeeds, returning `data.length`. -/
def cursorWrite (c : ByteCursor) (data : List Nat) : ByteCursor :=
  let padded := c.inner ++ List.replicate (c.pos - c.inner.length) 0
  { pos := c.pos + data.length
    inner := padded.take c.pos ++ data ++ padded.drop (c.pos + data.length) }

/-- The `std::io::SeekFrom` argument. -/
inductive SeekFrom where
  | start (n : Nat) : SeekFrom
  | current (off : Int) : SeekFrom
  | fromEnd (off : Int) : SeekFrom
deriving DecidableEq, Repr

/-- `Seek for Cursor<Vec<u8>>`: absolute positions always succeed; relative
positions fail (with the position unchanged) when the target would be
negative. -/
def cursorSeek (c : ByteCursor) (s : SeekFrom) : Except Unit (Nat × ByteCursor) :=
  match s with
  | SeekFrom.start n => Except.ok (n, { c with pos := n })
  | SeekFrom.current off =>
      let p : Int := (c.pos : Int) + off
      if p < 0 then Except.error () else Except.ok (p.toNat, { c with pos := p.toNat })
  | SeekFrom.fromEnd off =>
      let p : Int := (c.inner.length : Int) + off
      if p < 0 then Except.error () else Except.ok (p.toNat, { c with pos := p.toNat })

/-- `InMemorySection` (src/core/data/memory.rs): a cursor over a byte
vector plus the logical size `cur_size`. -/
structure InMemorySection where
  byte_buf : ByteCursor
  cur_size : Nat
deriving DecidableEq, Repr

/-- `InMemorySection::new(initial)`.  Modelled from the spec: the missing
`utils::new_byte_buf(initial)` produces an empty in-memory cursor where
`initial` is only a capacity hint (§4.4 `new_with_size(capacity_hint)`),
so the logical content starts empty and `cur_size` starts at 0. -/
def InMemorySection.new (_initial : Nat) : InMemorySection :=
  { byte_buf := { pos := 0, inner := [] }, cur_size := 0 }

/-- `Read for InMemorySection`: delegates to the cursor; `cur_size` is
untouched. -/
def memRead (m : InMemorySection) (n : Nat) : List Nat × InMemorySection :=
  let r := cursorRead m.byte_buf n
  (r.1, { m with byte_buf := r.2 })

/-- `Write for InMemorySection`: delegates to the cursor, then raises
`cur_size` to the new position when `position >= cur_size`
(src/core/data/memory.rs:60-67). -/
def memWrite (m : InMemorySection) (data : List Nat) : InMemorySection :=
  let c2 := cursorWrite m.byte_buf data
  if c2.pos ≥ m.cur_size then { byte_buf := c2, cur_size := c2.pos }
  else { byte_buf := c2, cur_size := m.cur_size }

/-- `Seek for InMemorySection`: delegates to the cursor; `cur_size` is
untouched and a failed seek leaves the cursor unchanged. -/
def memSeek (m : InMemorySection) (s : SeekFrom) : Except Unit (Nat × InMemorySection) :=
  match cursorSeek m.byte_buf s with
  | Except.error e => Except.error e
  | Except.ok (p, c2) => Except.ok (p, { m with byte_buf := c2 })

/-- `SectionData::size for InMemorySection`: returns `cur_size`. -/
def InMemorySection.size (m : InMemorySection) : Nat := m.cur_size

/-- One operation of the `Read + Write + Seek` interface of
`InMemorySection`. -/
inductive MOp where
  | readOp (n : Nat) : MOp
  | writeOp (data : List Nat) : MOp
  | seekOp (s : SeekFrom) : MOp
deriving DecidableEq, Repr

/-- Run one operation on an `InMemorySection`, keeping the resulting
state (a failed seek returns an error to the caller and leaves the state
unchanged). -/
def execOp (m : InMemorySection) : MOp → InMemorySection
  | MOp.readOp n => (memRead m n).2
  | MOp.writeOp d => memWrite m d
  | MOp.seekOp s =>
      match memSeek m s with
      | Except.ok r => r.2
      | Except.error _ => m

/-- Run a sequence of operations. -/
def execSeq (m : InMemorySection) : List MOp → InMemorySection
  | [] => m
  | op :: ops => execSeq (execOp m op) ops

/-- Modelled from the spec: the maximum end position reached by any
completed write in an operation sequence starting from state `m`
(0 if no write occurs).  The end position of a write is the cursor
position right after it completes.  This is the specification-side
quantity claim C9 compares `size()` against. -/
def specMaxWriteEnd (m : InMemorySection) : List MOp → Nat
  | [] => 0
  | op :: ops =>
      let m2 := execOp m op
      match op with
      | MOp.writeOp _ => max m2.byte_buf.pos (specMaxWriteEnd m2 ops)
      | _ => specMaxWriteEnd m2 ops

/-! ## Section entries and the section table (src/core/section.rs)

The `BTreeMap<u32, SectionEntry>` is embedded as an association list with
strictly increasing keys.  The `RefCell` borrow state of each entry's
payload cell is made explicit as a `borrowed` flag: a live `RefMut`
returned by `load`/`open` corresponds to `borrowed = true`, and
`try_borrow_mut` fails exactly when the flag is set. -/

/-- `SectionEntry1` (src/core/section.rs:81-85): write-time policy. -/
structure SectionEntry1 where
  threshold : Nat
  flags : Nat
deriving DecidableEq, Repr

/-- `SectionEntry` (src/core/section.rs:106-113).  `data` is the payload
cell (`None` = not loaded); `borrowed` is the `RefCell` borrow state of
that cell. -/
structure SectionEntry where
  entry1 : SectionEntry1
  header : SectionHeader
  data : Option InMemorySection
  index : Nat
  modified : Bool
  borrowed : Bool
deriving DecidableEq, Repr

/-- `SectionTable` (src/core/section.rs:131-138).  The backend is not part
of the state here: reads from it are abstracted into the loader oracle
passed to `loadTbl`. -/
structure SectionTable where
  sections : List (Nat × SectionEntry)
  count : Nat
  modified : Bool
  next_handle : Nat
deriving DecidableEq, Repr

/-- `BTreeMap` lookup on the key-sorted association list. -/
def lookupSec : List (Nat × SectionEntry) → Nat → Option SectionEntry
  | [], _ => none
  | (k, e) :: rest, h => if k = h then some e else lookupSec rest h

/-- `BTreeMap::insert` on the key-sorted association list (keys unique). -/
def insertSec : List (Nat × SectionEntry) → Nat → SectionEntry → List (Nat × SectionEntry)
  | [], k, e => [(k, e)]
  | (k0, e0) :: rest, k, e =>
      if k < k0 then (k, e) :: (k0, e0) :: rest
      else if k = k0 then (k, e) :: rest
      else (k0, e0) :: insertSec rest k e

/-- `BTreeMap::remove` on the association list: drops the entry with the
given key when present, otherwise a no-op. -/
def eraseSec : List (Nat × SectionEntry) → Nat → List (Nat × SectionEntry)
  | [], _ => []
  | (k, e) :: rest, h => if k = h then rest else (k, e) :: eraseSec rest h

/-- Apply a function to the entry stored under key `h` (if any). -/
def mapAtSec : List (Nat × SectionEntry) → Nat → (SectionEntry → SectionEntry) → List (Nat × SectionEntry)
  | [], _, _ => []
  | (k, e) :: rest, h, f =>
      if k = h then (k, f e) :: rest else (k, e) :: mapAtSec rest h f

/-- Set the `RefCell` borrow flag of the entry under key `h`: models a
live (or dropped) `RefMut` on that entry's payload cell. -/
def setBorrowed (t : SectionTable) (h : Nat) (b : Bool) : SectionTable :=
  { t with sections := mapAtSec t.sections h (fun e => { e with borrowed := b }) }

/-- `SectionTable::create` (src/core/section.rs:231-251): sets the table's
modified flag, increments `count`, inserts a fresh entry with an empty
payload buffer at key `next_handle` (its `index` is the incremented count
minus one, its `entry1` takes `threshold` from the header's `csize` and
the header's flags), increments `next_handle` and returns the handle. -/
def createTbl (t : SectionTable) (hdr : SectionHeader) : Nat × SectionTable :=
  let count2 := t.count + 1
  let r := t.next_handle
  let entry : SectionEntry :=
    { header := hdr
      data := some (InMemorySection.new 0)
      modified := false
      borrowed := false
      index := count2 - 1
      entry1 := { threshold := hdr.csize, flags := hdr.flags } }
  (r, { sections := insertSec t.sections r entry
        count := count2
        modified := true
        next_handle := r + 1 })

/-- The index-shift pass of `SectionTable::remove`
(src/core/section.rs:283-287): for every entry whose key is in the range
`(Included(handle), Unbounded)` after the removal, decrement its `index`.
`u32` subtraction underflows (debug-build panic) when such an index is 0,
which the checked result `none` records. -/
def decIndicesFrom : List (Nat × SectionEntry) → Nat → Option (List (Nat × SectionEntry))
  | [], _ => some []
  | (k, e) :: rest, h =>
      if h ≤ k then
        if e.index = 0 then none
        else (decIndicesFrom rest h).map (fun l => (k, { e with index := e.index - 1 }) :: l)
      else (decIndicesFrom rest h).map (fun l => (k, e) :: l)

/-- `SectionTable::remove` (src/core/section.rs:278-288): removes the key
from the map (a no-op when absent), decrements `count` (u32 underflow =
debug-build panic, recorded as `none`), sets the table's modified flag,
then decrements the `index` of every remaining entry with key ≥ handle. -/
def removeTbl (t : SectionTable) (h : Nat) : Option SectionTable :=
  let sections1 := eraseSec t.sections h
  if t.count = 0 then none
  else
    (decIndicesFrom sections1 h).map (fun sections2 =>
      { sections := sections2
        count := t.count - 1
        modified := true
        next_handle := t.next_handle })

/-- `SectionTable::load` (src/core/section.rs:152-163).  The handle is
looked up with `BTreeMap` indexing (panic when absent); `try_borrow_mut`
fails with `SectionInUse` when the cell is already borrowed; when the
payload is absent the read pipeline (`load_section1`, abstracted as the
`loader` oracle over the backend) materializes it, and any pipeline error
propagates before the cell is written; on success the entry's modified
flag is set and a live exclusive borrow of the cell is returned. -/
def loadTbl (loader : SectionHeader → Except ReadError InMemorySection)
    (t : SectionTable) (h : Nat) : RRes CoreError Unit × SectionTable :=
  match lookupSec t.sections h with
  | none => (RRes.panicked, t)
  | some e =>
      if e.borrowed then (RRes.error (CoreError.openErr OpenError.sectionInUse), t)
      else
        match e.data with
        | some _ =>
            (RRes.ok (),
              { t with sections :=
                  mapAtSec t.sections h (fun e0 => { e0 with modified := true, borrowed := true }) })
        | none =>
            match loader e.header with
            | Except.error re => (RRes.error (CoreError.readErr re), t)
            | Except.ok m =>
                (RRes.ok (),
                  { t with sections :=
                      mapAtSec t.sections h (fun e0 => { e0 with data := some m, modified := true, borrowed := true }) })

/-- `SectionTable::open` (src/core/section.rs:184-192): same borrow
discipline as `load`, but never touches the backend: an unloaded payload
is `SectionNotLoaded`. -/
def openTbl (t : SectionTable) (h : Nat) : RRes OpenError Unit × SectionTable :=
  match lookupSec t.sections h with
  | none => (RRes.panicked, t)
  | some e =>
      if e.borrowed then (RRes.error OpenError.sectionInUse, t)
      else
        match e.data with
        | none => (RRes.error OpenError.sectionNotLoaded, t)
        | some _ =>
            (RRes.ok (),
              { t with sections :=
                  mapAtSec t.sections h (fun e0 => { e0 with modified := true, borrowed := true }) })

/-! ## Core decoder (src/core/decoder.rs) -/

/-- Modelled from the spec: `DEFAULT_COMPRESSION_THRESHOLD` is a default
tunable (§6) whose concrete value lives in the missing core module root;
its value is irrelevant to every claim. -/
def DEFAULT_COMPRESSION_THRESHOLD : Nat := 65536

/-- The entry `read_section_header_table` inserts for the record at
ordinal `i` (src/core/decoder.rs:79-91): header-only (`data = None`),
unmodified, `index = i`, write policy carrying the header's flags and the
default threshold. -/
def decodedEntry (hdr : SectionHeader) (i : Nat) : SectionEntry :=
  { header := hdr
    data := none
    modified := false
    borrowed := false
    index := i
    entry1 := { flags := hdr.flags, threshold := DEFAULT_COMPRESSION_THRESHOLD } }

/-- The loop of `read_section_header_table` (src/core/decoder.rs:76-93):
`n` iterations remain, the backend yields `records` (each a record
checksum paired with the decoded header, the contract of
`SectionHeader::read`, §4.1), `acc` is the running checksum and `hdl` the
next handle (equal to the loop ordinal `i`).  A short backend is `Eos`;
the u32 accumulation `final_checksum += checksum` overflows to a
debug-build panic. -/
def readSHTGo (n : Nat) (records : List (Nat × SectionHeader)) (acc hdl : Nat) :
    RRes ReadError (Nat × Nat × List (Nat × SectionEntry)) :=
  match n, records with
  | 0, _ => RRes.ok (acc, hdl, [])
  | _ + 1, [] => RRes.error ReadError.eos
  | m + 1, (chk, hdr) :: rest =>
      match checkedAddU32 acc chk with
      | none => RRes.panicked
      | some acc2 =>
          match readSHTGo m rest acc2 (hdl + 1) with
          | RRes.ok (accF, hdlF, entries) => RRes.ok (accF, hdlF, (hdl, decodedEntry hdr hdl) :: entries)
          | RRes.error e => RRes.error e
          | RRes.panicked => RRes.panicked

/-- `read_section_header_table` (src/core/decoder.rs:66-98): reads
`main_header.section_num` records, accumulating the record checksums on
top of the initial `checksum` argument, builds the handle → entry map with
handles allocated sequentially from 0, and fails with
`Checksum(computed, expected)` when the final accumulator differs from
`main_header.chksum`; otherwise returns the next free handle and the map. -/
def readSectionHeaderTable (records : List (Nat × SectionHeader)) (mh : MainHeader)
    (checksum : Nat) : RRes ReadError (Nat × List (Nat × SectionEntry)) :=
  match readSHTGo mh.section_num records checksum 0 with
  | RRes.ok (acc, hdl, entries) =>
      if acc ≠ mh.chksum then RRes.error (ReadError.checksum acc mh.chksum)
      else RRes.ok (hdl, entries)
  | RRes.error e => RRes.error e
  | RRes.panicked => RRes.panicked

/-- Modelled from the spec: the container open path (the container module
is not under src/) stores the entry map produced by
`read_section_header_table` in a fresh, unmodified section table whose
`count` is the section count and whose `next_handle` is the handle counter
the decoder returns (§2, §4.6). -/
def decodedTable (hdl : Nat) (entries : List (Nat × SectionEntry)) : SectionTable :=
  { sections := entries, count := hdl, modified := false, next_handle := hdl }

/-- Which compression codec a pipeline step invokes. -/
inductive Codec where
  | xz : Codec
  | zlib : Codec
deriving DecidableEq, Repr

/-- One observable backend action of the section read pipeline: a seek, a
codec inflate run consuming a given number of compressed bytes, or a raw
sequential copy of a given number of bytes. -/
inductive ReadEffect where
  | seek (pos : Nat) : ReadEffect
  | inflate (c : Codec) (csize : Nat) : ReadEffect
  | rawRead (size : Nat) : ReadEffect
deriving DecidableEq, Repr

/-- `load_section_compressed` (src/core/decoder.rs:171-186): seeks the
backend to `header.pointer`, then invokes
`XzCompressionMethod::inflate(bpx, output, header.csize, chksum)` — the
`TMethod` type parameter (`method` here) is ignored by the body, which
hard-codes the XZ inflater. -/
def loadSectionCompressedPlan (_method : Codec) (hdr : SectionHeader) : List ReadEffect :=
  [ReadEffect.seek hdr.pointer, ReadEffect.inflate Codec.xz hdr.csize]

/-- `load_section_uncompressed` (src/core/decoder.rs:149-169): seeks to
`header.pointer` then sequentially copies `header.size` bytes in 8 KiB
blocks, teeing them through the checksum. -/
def loadSectionUncompressedPlan (hdr : SectionHeader) : List ReadEffect :=
  [ReadEffect.seek hdr.pointer, ReadEffect.rawRead hdr.size]

/-- `load_section_checked` (src/core/decoder.rs:132-147): dispatches on the
header flags — `FLAG_COMPRESS_XZ` to `load_section_compressed` with the XZ
method, else `FLAG_COMPRESS_ZLIB` to `load_section_compressed` with the
Zlib method, else the raw copy. -/
def loadSectionCheckedPlan (hdr : SectionHeader) : List ReadEffect :=
  if hdr.flags &&& FLAG_COMPRESS_XZ ≠ 0 then loadSectionCompressedPlan Codec.xz hdr
  else if hdr.flags &&& FLAG_COMPRESS_ZLIB ≠ 0 then loadSectionCompressedPlan Codec.zlib hdr
  else loadSectionUncompressedPlan hdr

/-- Modelled from the spec: the streaming `WeakChecksum` engine
(core/compression is not under src/): the wrapping u32 sum of the bytes
pushed through it, starting at 0 (§4.2). -/
def weakChecksum (bytes : List Nat) : Nat :=
  bytes.foldl (fun a b => wrapAddU32 a b) 0

/-- An `InMemorySection` holding exactly `bytes`, rewound to position 0:
the state of the freshly populated payload buffer `load_section1` returns
after its final `seek(Start(0))`. -/
def memOfBytes (bytes : List Nat) : InMemorySection :=
  { byte_buf := { pos := 0, inner := bytes }, cur_size := bytes.length }

/-- `load_section1` (src/core/decoder.rs:100-130): allocates a payload
buffer sized from the header, runs the checked pipeline into it, and
dispatches on the checksum flags — `FLAG_CHECK_WEAK` verifies the weak
sum of the decompressed bytes against `header.chksum`, `FLAG_CHECK_CRC32`
verifies the CRC32, no flag runs the weak engine but never verifies.
Here `fetch` abstracts the pipeline transfer of §4.6 step 3 (the codecs
are not under src/): it yields the decompressed payload bytes or the
pipeline's read error, and `crc32` abstracts the `Crc32Checksum` engine
(also not under src/). -/
def loadSection1 (fetch : SectionHeader → Except ReadError (List Nat))
    (crc32 : List Nat → Nat) (sec : SectionHeader) : Except ReadError InMemorySection :=
  if sec.flags &&& FLAG_CHECK_WEAK ≠ 0 then
    match fetch sec with
    | Except.error e => Except.error e
    | Except.ok bytes =>
        let v := weakChecksum bytes
        if v ≠ sec.chksum then Except.error (ReadError.checksum v sec.chksum)
        else Except.ok (memOfBytes bytes)
  else if sec.flags &&& FLAG_CHECK_CRC32 ≠ 0 then
    match fetch sec with
    | Except.error e => Except.error e
    | Except.ok bytes =>
        let v := crc32 bytes
        if v ≠ sec.chksum then Except.error (ReadError.checksum v sec.chksum)
        else Except.ok (memOfBytes bytes)
  else
    match fetch sec with
    | Except.error e => Except.error e
    | Except.ok bytes => Except.ok (memOfBytes bytes)

/-! ## Legacy decoder (src/decoder.rs) -/

/-- The loop of the legacy `Decoder::read_section_header_table`
(src/decoder.rs:69-92): for each of the `section_num` records, reject a
Zlib-flagged header with `Unsupported("FLAG_COMPRESS_ZLIB")`, then a
CRC32-flagged header with `Unsupported("FLAG_CHECK_CRC32")`, then add the
record checksum to the accumulator (u32 `+=`, overflow = debug-build
panic) and keep the header. -/
def legacyReadSHTGo (n : Nat) (records : List (Nat × SectionHeader)) (acc : Nat) :
    RRes LegacyError (Nat × List SectionHeader) :=
  match n, records with
  | 0, _ => RRes.ok (acc, [])
  | _ + 1, [] => RRes.error LegacyError.eos
  | m + 1, (chk, hdr) :: rest =>
      if hdr.flags &&& FLAG_COMPRESS_ZLIB = FLAG_COMPRESS_ZLIB then
        RRes.error (LegacyError.unsupported "FLAG_COMPRESS_ZLIB")
      else if hdr.flags &&& FLAG_CHECK_CRC32 = FLAG_CHECK_CRC32 then
        RRes.error (LegacyError.unsupported "FLAG_CHECK_CRC32")
      else
        match checkedAddU32 acc chk with
        | none => RRes.panicked
        | some acc2 =>
            match legacyReadSHTGo m rest acc2 with
            | RRes.ok (accF, hs) => RRes.ok (accF, hdr :: hs)
            | RRes.error e => RRes.error e
            | RRes.panicked => RRes.panicked

/-- The legacy `Decoder::read_section_header_table` (src/decoder.rs:69-92)
as run by `Decoder::new` (src/decoder.rs:104-117): the loop above followed
by the aggregate comparison against `main_header.chksum`, starting the
accumulator from the main header's own record checksum. -/
def legacyReadSHT (records : List (Nat × SectionHeader)) (mh : MainHeader)
    (checksum : Nat) : RRes LegacyError (Nat × List SectionHeader) :=
  match legacyReadSHTGo mh.section_num records checksum with
  | RRes.ok (accF, hs) =>
      if accF ≠ mh.chksum then RRes.error (LegacyError.checksum accF mh.chksum)
      else RRes.ok (accF, hs)
  | RRes.error e => RRes.error e
  | RRes.panicked => RRes.panicked

/-- The legacy `load_section` (src/decoder.rs:176-205) up to the payload
transfer, which is abstracted as the plan of backend effects it issues:
a CRC32-flagged header is rejected first with
`Unsupported("FLAG_CHECK_CRC32")`; an XZ-flagged header seeks to
`header.pointer` and runs the XZ inflater for `header.size` bytes (the
legacy `load_section_compressed`, src/decoder.rs:225-230, passes
`header.size` — not `csize` — and hard-codes `XzCompressionMethod`); a
Zlib-flagged header is rejected with `Unsupported("FLAG_COMPRESS_ZLIB")`;
otherwise `header.size` bytes are copied raw. -/
def legacyLoadSectionPlan (hdr : SectionHeader) : Except LegacyError (List ReadEffect) :=
  if hdr.flags &&& FLAG_CHECK_CRC32 ≠ 0 then
    Except.error (LegacyError.unsupported "FLAG_CHECK_CRC32")
  else if hdr.flags &&& FLAG_COMPRESS_XZ ≠ 0 then
    Except.ok [ReadEffect.seek hdr.pointer, ReadEffect.inflate Codec.xz hdr.size]
  else if hdr.flags &&& FLAG_COMPRESS_ZLIB ≠ 0 then
    Except.error (LegacyError.unsupported "FLAG_COMPRESS_ZLIB")
  else
    Except.ok [ReadEffect.seek hdr.pointer, ReadEffect.rawRead hdr.size]

/-! ## Create / remove operation sequences (for claim C3) -/

/-- The empty section table a fresh container starts from. -/
def emptyTable : SectionTable :=
  { sections := [], count := 0, modified := false, next_handle := 0 }

/-- One section-table mutation: `create` with a header, or `remove` of a
handle. -/
inductive TOp where
  | create (hdr : SectionHeader) : TOp
  | remove (h : Nat) : TOp
deriving DecidableEq, Repr

/-- Apply one mutation; `none` records a panic inside `remove`. -/
def applyOp (t : SectionTable) : TOp → Option SectionTable
  | TOp.create hdr => some (createTbl t hdr).2
  | TOp.remove h => removeTbl t h

/-- Apply a sequence of mutations, propagating a panic. -/
def applySeq (t : SectionTable) : List TOp → Option SectionTable
  | [] => some t
  | op :: ops =>
      match applyOp t op with
      | none => none
      | some t2 => applySeq t2 ops

/-- A mutation sequence in which every `remove` names a handle that is
present in the table at that point (and no step panics): the hypothesis of
claim C3. -/
def SeqOk (t : SectionTable) : List TOp → Bool
  | [] => true
  | TOp.create hdr :: ops => SeqOk (createTbl t hdr).2 ops
  | TOp.remove h :: ops =>
      (lookupSec t.sections h).isSome &&
        (match removeTbl t h with
         | some t2 => SeqOk t2 ops
         | none => false)

/-- The structural invariant of the section table: keys strictly
increase, the indices read off in key order are exactly `0, 1, …, len-1`,
`count` equals the map size, and every key is below `next_handle`. -/
def TblInv (t : SectionTable) : Prop :=
  List.Pairwise (fun a b => a.1 < b.1) t.sections ∧
  t.sections.map (fun p => p.2.index) = List.range t.sections.length ∧
  t.count = t.sections.length ∧
  ∀ p ∈ t.sections, p.1 < t.next_handle

/-- A table produced by a successful run of the core decoder. -/
def IsDecodedTable (t : SectionTable) : Prop :=
  ∃ records mh checksum hdl entries,
    readSectionHeaderTable records mh checksum = RRes.ok (hdl, entries) ∧
    t = decodedTable hdl entries

/-! ## Claims C1, C6, C7: divergences between the code and the spec -/

/-- A concrete Zlib-flagged section header: flags = `FLAG_COMPRESS_ZLIB`
(0x08), payload at offset 64, 5 compressed bytes, 10 uncompressed. -/
def zlibHeader : SectionHeader :=
  { pointer := 64, csize := 5, size := 10, chksum := 0, ty := 3, flags := FLAG_COMPRESS_ZLIB }

/-- C1: the claim says the read pipeline runs the inflater matching the
compression flag (Zlib inflater when `FLAG_COMPRESS_ZLIB` is set).  The
code does not: on the Zlib-flagged header the checked pipeline of the core
decoder dispatches to `load_section_compressed` with the Zlib method, but
that function's body hard-codes `XzCompressionMethod::inflate`
(src/core/decoder.rs:184), so the XZ inflater is run on the Zlib stream.
This theorem evaluates the pipeline plan at the failing input. -/
theorem c1_zlib_flag_runs_xz_inflater :
    loadSectionCheckedPlan zlibHeader =
      [ReadEffect.seek 64, ReadEffect.inflate Codec.xz 5] := by decide

/-- A one-entry section table: the single section lives at handle 0 with
index 0; `count = 1`. -/
def oneEntryTable : SectionTable :=
  { sections := [(0, decodedEntry zlibHeader 0)]
    count := 1
    modified := false
    next_handle := 1 }

/-- C6: the claim (and the doc comment on `SectionTable::remove`) says an
unknown handle panics.  The code does not panic: `BTreeMap::remove` of the
absent key 5 is a silent no-op, yet `count` is still decremented (1 → 0)
and the table's modified flag is still set, leaving `count` different from
the number of entries.  This theorem evaluates `remove` at the failing
input: the result is a normal return (`some`), not a panic (`none`). -/
theorem c6_remove_unknown_handle_no_panic :
    removeTbl oneEntryTable 5 =
      some { sections := [(0, decodedEntry zlibHeader 0)]
             count := 0
             modified := true
             next_handle := 1 } := by decide

/-- Two section-header records whose record checksums are each 2^31: their
plain sum, 2^32, overflows a u32. -/
def overflowRecords : List (Nat × SectionHeader) :=
  [(2147483648, zlibHeader), (2147483648, zlibHeader)]

/-- C7: the claim says the aggregate accumulation is wrapping mod 2^32 and
never fails on overflow.  The code accumulates with plain u32 `+=`
(src/core/decoder.rs:78), which traps on overflow in a build with overflow
checks instead of wrapping: on two records of checksum 2^31 each the loop
panics where the claim requires the wrapping sum 0. -/
theorem c7_plain_add_overflow_panics :
    readSectionHeaderTable overflowRecords { section_num := 2, chksum := 0 } 0 =
      RRes.panicked ∧ wrapAddU32 2147483648 2147483648 = 0 := by decide

/-! ## Claim C9: InMemorySection size semantics -/

/-- After a cursor write the position sits at the end of the written
range. -/
theorem memWrite_pos (m : InMemorySection) (d : List Nat) :
    (memWrite m d).byte_buf.pos = m.byte_buf.pos + d.length := by
  simp only [memWrite, cursorWrite]
  split <;> rfl

/-- `cur_size` after a write is the maximum of the old size and the end
position of the write. -/
theorem cursorWrite_pos (c : ByteCursor) (d : List Nat) :
    (cursorWrite c d).pos = c.pos + d.length := rfl

theorem memWrite_size (m : InMemorySection) (d : List Nat) :
    (memWrite m d).cur_size = max m.cur_size (m.byte_buf.pos + d.length) := by
  unfold memWrite
  simp only [cursorWrite_pos]
  split <;> rename_i h <;> simp <;> omega

/-- The vector length after a write is the maximum of the old length and
the end position of the write. -/
theorem cursorWrite_inner_length (c : ByteCursor) (d : List Nat) :
    (cursorWrite c d).inner.length = max c.inner.length (c.pos + d.length) := by
  simp only [cursorWrite, List.length_append, List.length_take, List.length_drop,
    List.length_replicate]
  omega

/-- Reads do not change `cur_size`. -/
theorem execOp_read_size (m : InMemorySection) (n : Nat) :
    (execOp m (MOp.readOp n)).cur_size = m.cur_size := rfl

/-- Seeks do not change `cur_size`. -/
theorem execOp_seek_size (m : InMemorySection) (s : SeekFrom) :
    (execOp m (MOp.seekOp s)).cur_size = m.cur_size := by
  simp only [execOp, memSeek]
  rcases h : cursorSeek m.byte_buf s with _ | ⟨p, c2⟩ <;> simp

/-- Reads do not change the vector. -/
theorem execOp_read_inner (m : InMemorySection) (n : Nat) :
    (execOp m (MOp.readOp n)).byte_buf.inner = m.byte_buf.inner := rfl

/-- Seeks do not change the vector. -/
theorem execOp_seek_inner (m : InMemorySection) (s : SeekFrom) :
    (execOp m (MOp.seekOp s)).byte_buf.inner = m.byte_buf.inner := by
  simp only [execOp, memSeek]
  rcases h : cursorSeek m.byte_buf s with _ | ⟨p, c2⟩
  · simp
  · simp only []
    have : c2.inner = m.byte_buf.inner := by
      rcases s with n | off | off <;> simp only [cursorSeek] at h
      · exact (by cases h; rfl)
      · split at h
        · cases h
        · cases h; rfl
      · split at h
        · cases h
        · cases h; rfl
    simpa using this

/-- The running size of an operation sequence: the final `cur_size` is
the starting `cur_size` maxed with every write's end position. -/
theorem execSeq_size (ops : List MOp) :
    ∀ m : InMemorySection,
      (execSeq m ops).cur_size = max m.cur_size (specMaxWriteEnd m ops) := by
  induction ops with
  | nil => intro m; simp [execSeq, specMaxWriteEnd]
  | cons op ops ih =>
      intro m
      cases op with
      | writeOp d =>
          simp only [execSeq, specMaxWriteEnd, execOp]
          rw [ih]
          rw [memWrite_size, memWrite_pos]
          omega
      | readOp n =>
          simp only [execSeq, specMaxWriteEnd]
          rw [ih]
          rw [execOp_read_size]
      | seekOp s =>
          simp only [execSeq, specMaxWriteEnd]
          rw [ih]
          rw [execOp_seek_size]

/-- Reachable states keep the vector length equal to `cur_size`. -/
theorem execSeq_inner_length (ops : List MOp) :
    ∀ m : InMemorySection, m.byte_buf.inner.length = m.cur_size →
      (execSeq m ops).byte_buf.inner.length = (execSeq m ops).cur_size := by
  induction ops with
  | nil => intro m h; simpa [execSeq] using h
  | cons op ops ih =>
      intro m h
      apply ih
      cases op with
      | writeOp d =>
          have h1 : (execOp m (MOp.writeOp d)).byte_buf.inner.length
              = max m.byte_buf.inner.length (m.byte_buf.pos + d.length) := by
            simp only [execOp, memWrite]
            split <;> simpa using cursorWrite_inner_length m.byte_buf d
          rw [h1, h]
          have h2 := memWrite_size m d
          simp only [execOp]
          omega
      | readOp n => rw [execOp_read_size, execOp_read_inner, h]
      | seekOp s => rw [execOp_seek_size, execOp_seek_inner, h]

/-- A read issued at or past the end of the vector returns no bytes and
leaves the section untouched. -/
theorem memRead_at_eof (m : InMemorySection) (n : Nat)
    (hlen : m.byte_buf.inner.length = m.cur_size)
    (hpos : m.byte_buf.pos ≥ m.cur_size) :
    memRead m n = ([], m) := by
  have hmin : min m.byte_buf.pos m.byte_buf.inner.length = m.byte_buf.inner.length := by
    omega
  simp [memRead, cursorRead, hmin]

/-- C9: for an `InMemorySection` built by any sequence of write, seek and
read operations, `size()` equals the maximum end position reached by any
completed write (0 when no write happened); seek and read operations never
change `size()`; and a read issued at a position at or beyond `size()`
returns 0 bytes (a plain EOF, never an error) without touching the
section. -/
theorem c9_in_memory_size_semantics (initial : Nat) (ops : List MOp) :
    (execSeq (InMemorySection.new initial) ops).size
        = specMaxWriteEnd (InMemorySection.new initial) ops ∧
    (∀ (m : InMemorySection) (s : SeekFrom), (execOp m (MOp.seekOp s)).size = m.size) ∧
    (∀ (m : InMemorySection) (n : Nat), (execOp m (MOp.readOp n)).size = m.size) ∧
    (∀ n : Nat,
      (execSeq (InMemorySection.new initial) ops).byte_buf.pos
          ≥ (execSeq (InMemorySection.new initial) ops).size →
      memRead (execSeq (InMemorySection.new initial) ops) n
        = ([], execSeq (InMemorySection.new initial) ops)) := by
  refine ⟨?_, ?_, ?_, ?_⟩
  · have h := execSeq_size ops (InMemorySection.new initial)
    simpa [InMemorySection.size, InMemorySection.new] using h
  · intro m s; exact execOp_seek_size m s
  · intro m n; exact execOp_read_size m n
  · intro n hpos
    have hlen : (execSeq (InMemorySection.new initial) ops).byte_buf.inner.length
        = (execSeq (InMemorySection.new initial) ops).cur_size :=
      execSeq_inner_length ops (InMemorySection.new initial) rfl
    exact memRead_at_eof _ n hlen hpos

/-- A concrete operation sequence: write two bytes, then seek past the
end. -/
def c9DemoOps : List MOp := [MOp.writeOp [5, 6], MOp.seekOp (SeekFrom.start 7)]

/-- Witness for C9 at a concrete input: after writing `[5, 6]` and seeking
to 7 the size is the maximum write end, and a read at position 7 ≥ size
returns no bytes. -/
theorem c9_witness :
    (execSeq (InMemorySection.new 0) c9DemoOps).size
        = specMaxWriteEnd (InMemorySection.new 0) c9DemoOps ∧
    memRead (execSeq (InMemorySection.new 0) c9DemoOps) 3
        = ([], execSeq (InMemorySection.new 0) c9DemoOps) :=
  ⟨(c9_in_memory_size_semantics 0 c9DemoOps).1,
   (c9_in_memory_size_semantics 0 c9DemoOps).2.2.2 3 (by decide)⟩

/-! ## Claim C2: reading the section-header table -/

/-- The plain (unbounded) sum of the record checksums of a record list. -/
def sumChk (records : List (Nat × SectionHeader)) : Nat :=
  (records.map Prod.fst).sum

/-- The entry map the decoder builds from a record list, handles (and
indices) allocated sequentially from `k`. -/
def buildEntries : List (Nat × SectionHeader) → Nat → List (Nat × SectionEntry)
  | [], _ => []
  | (_, hdr) :: rest, k => (k, decodedEntry hdr k) :: buildEntries rest (k + 1)

theorem sumChk_cons (c : Nat) (hdr : SectionHeader) (rest : List (Nat × SectionHeader)) :
    sumChk ((c, hdr) :: rest) = c + sumChk rest := by
  simp [sumChk]

theorem buildEntries_length (rs : List (Nat × SectionHeader)) :
    ∀ k, (buildEntries rs k).length = rs.length := by
  induction rs with
  | nil => intro k; rfl
  | cons r rest ih => intro k; cases r; simp [buildEntries, ih]

theorem buildEntries_map_fst (rs : List (Nat × SectionHeader)) :
    ∀ k, (buildEntries rs k).map Prod.fst = List.range' k rs.length := by
  induction rs with
  | nil => intro k; rfl
  | cons r rest ih => cases r; intro k; simp [buildEntries, List.range', ih]

theorem buildEntries_map_index (rs : List (Nat × SectionHeader)) :
    ∀ k, (buildEntries rs k).map (fun p => p.2.index) = List.range' k rs.length := by
  induction rs with
  | nil => intro k; rfl
  | cons r rest ih => cases r; intro k; simp [buildEntries, List.range', decodedEntry, ih]

theorem buildEntries_getElem (rs : List (Nat × SectionHeader)) :
    ∀ k i, (buildEntries rs k)[i]? = (rs[i]?).map (fun r => (k + i, decodedEntry r.2 (k + i))) := by
  induction rs with
  | nil => intro k i; rfl
  | cons r rest ih =>
      intro k i
      cases r
      cases i with
      | zero => simp [buildEntries]
      | succ j =>
          simp only [buildEntries, List.getElem?_cons_succ, ih (k + 1) j]
          have : k + 1 + j = k + (j + 1) := by omega
          rw [this]

/-- A successful run of the decoder loop on exactly `records.length`
records: the accumulator ends at the initial value plus the record-sum,
handles advance by one per record, and the entry list is the sequential
build. -/
theorem readSHTGo_ok (records : List (Nat × SectionHeader)) :
    ∀ acc hdl : Nat, acc + sumChk records < U32MOD →
      readSHTGo records.length records acc hdl
        = RRes.ok (acc + sumChk records, hdl + records.length, buildEntries records hdl) := by
  induction records with
  | nil =>
      intro acc hdl _
      simp [readSHTGo, sumChk, buildEntries]
  | cons r rest ih =>
      rcases r with ⟨chk, hdr⟩
      intro acc hdl hov
      rw [sumChk_cons] at hov
      have hsome : checkedAddU32 acc chk = some (acc + chk) := by
        unfold checkedAddU32
        rw [if_pos (by omega)]
      have hrec := ih (acc + chk) (hdl + 1) (by omega)
      simp only [List.length_cons, readSHTGo, hsome, hrec, sumChk_cons, buildEntries]
      have h1 : acc + chk + sumChk rest = acc + (chk + sumChk rest) := by omega
      have h2 : hdl + 1 + rest.length = hdl + (rest.length + 1) := by omega
      rw [h1, h2]

/-- The entry list of any successful decoder-loop run is the sequential
build over the records consumed. -/
theorem readSHTGo_ok_inv :
    ∀ (n : Nat) (records : List (Nat × SectionHeader)) (acc hdl accF hdlF : Nat)
      (es : List (Nat × SectionEntry)),
      readSHTGo n records acc hdl = RRes.ok (accF, hdlF, es) →
      es = buildEntries (records.take n) hdl ∧ hdlF = hdl + n ∧ n ≤ records.length := by
  intro n
  induction n with
  | zero =>
      intro records acc hdl accF hdlF es h
      simp only [readSHTGo] at h
      cases h
      exact ⟨rfl, by omega, by omega⟩
  | succ m ih =>
      intro records acc hdl accF hdlF es h
      cases records with
      | nil => simp [readSHTGo] at h
      | cons r rest =>
          rcases r with ⟨chk, hdr⟩
          simp only [readSHTGo] at h
          split at h
          · simp at h
          · rename_i acc2 hadd
            split at h
            · rename_i aF hF entries hrec
              simp only [RRes.ok.injEq, Prod.mk.injEq] at h
              rcases h with ⟨h1, h2, h3⟩
              rcases ih rest acc2 (hdl + 1) aF hF entries hrec with ⟨ih1, ih2, ih3⟩
              refine ⟨?_, by omega, ?_⟩
              · rw [← h3, ih1]
                simp [buildEntries]
              · simp only [List.length_cons]
                omega
            · simp at h
            · simp at h

/-- C2: with all `main_header.section_num` records readable and the
accumulation not overflowing, `read_section_header_table` consumes exactly
`section_num` records, and returns `Checksum(computed, expected)` exactly
when the accumulated record-checksum sum (on top of the initial
accumulator value the caller passes in) differs from `main_header.chksum`;
on the matching case it returns the map holding, for the i-th record, a
header-only entry (`data = none`, `modified = false`) with `index = i`
under handle `i`, handles allocated sequentially from 0, together with the
next free handle `section_num`. -/
theorem c2_read_table_entries_and_checksum (records : List (Nat × SectionHeader))
    (mh : MainHeader) (checksum : Nat)
    (hlen : records.length = mh.section_num)
    (hov : checksum + sumChk records < U32MOD) :
    (checksum + sumChk records ≠ mh.chksum →
        readSectionHeaderTable records mh checksum
          = RRes.error (ReadError.checksum (checksum + sumChk records) mh.chksum)) ∧
    (checksum + sumChk records = mh.chksum →
        readSectionHeaderTable records mh checksum
          = RRes.ok (mh.section_num, buildEntries records 0)) ∧
    (∀ i : Nat, (buildEntries records 0)[i]?
        = (records[i]?).map (fun r => (i, decodedEntry r.2 i))) := by
  have hgo := readSHTGo_ok records checksum 0 hov
  rw [hlen] at hgo
  refine ⟨?_, ?_, ?_⟩
  · intro hne
    unfold readSectionHeaderTable
    rw [hgo]
    simp only [if_pos hne]
  · intro heq
    unfold readSectionHeaderTable
    rw [hgo]
    simp only [heq, ite_not, if_pos rfl]
    rw [← hlen]
    simp
  · intro i
    have h := buildEntries_getElem records 0 i
    simpa using h

/-- Concrete records and main header for the C2 witness: two records with
checksums 3 and 4, aggregate 7. -/
def c2Recs : List (Nat × SectionHeader) := [(3, zlibHeader), (4, zlibHeader)]

/-- Witness for C2 at a concrete input: the aggregate matches, so decoding
succeeds with the two sequentially numbered header-only entries. -/
theorem c2_witness :
    readSectionHeaderTable c2Recs { section_num := 2, chksum := 7 } 0
      = RRes.ok (2, buildEntries c2Recs 0) :=
  (c2_read_table_entries_and_checksum c2Recs { section_num := 2, chksum := 7 } 0
    (by decide) (by decide)).2.1 (by decide)

/-! ## Claims C4, C5, C8: load / open semantics -/

theorem lookupSec_mapAtSec_ne (l : List (Nat × SectionEntry)) (h h' : Nat)
    (f : SectionEntry → SectionEntry) (hne : h' ≠ h) :
    lookupSec (mapAtSec l h f) h' = lookupSec l h' := by
  induction l with
  | nil => rfl
  | cons p rest ih =>
      rcases p with ⟨k, e⟩
      by_cases hk : k = h
      · subst hk
        simp [mapAtSec, lookupSec, Ne.symm hne]
      · simp [mapAtSec, lookupSec, hk, ih]

theorem lookupSec_mapAtSec_eq (l : List (Nat × SectionEntry)) (h : Nat)
    (f : SectionEntry → SectionEntry) :
    lookupSec (mapAtSec l h f) h = (lookupSec l h).map f := by
  induction l with
  | nil => rfl
  | cons p rest ih =>
      rcases p with ⟨k, e⟩
      by_cases hk : k = h
      · subst hk
        simp [mapAtSec, lookupSec]
      · simp [mapAtSec, lookupSec, hk, ih]

theorem mapAtSec_comm (l : List (Nat × SectionEntry)) (h h' : Nat)
    (f g : SectionEntry → SectionEntry) (hne : h' ≠ h) :
    mapAtSec (mapAtSec l h f) h' g = mapAtSec (mapAtSec l h' g) h f := by
  induction l with
  | nil => rfl
  | cons p rest ih =>
      rcases p with ⟨k, e⟩
      by_cases hk : k = h
      · subst hk
        simp [mapAtSec, Ne.symm hne, ih]
      · by_cases hk' : k = h'
        · subst hk'
          simp [mapAtSec, hk, ih]
        · simp [mapAtSec, hk, hk', ih]

/-- C4: when a not-yet-materialized entry's pipeline run fails — for any
read error, and in particular for a payload checksum mismatch under
`FLAG_CHECK_WEAK` — `SectionTable::load` returns that error (a checksum
mismatch surfaces as `Checksum(computed, expected)`) and the table is
untouched: the entry's `data` is still `None` and its modified flag is
still `false`. -/
theorem c4_load_error_leaves_section_unloaded
    (fetch : SectionHeader → Except ReadError (List Nat)) (crc32 : List Nat → Nat)
    (t : SectionTable) (h : Nat) (e : SectionEntry)
    (hl : lookupSec t.sections h = some e) (hb : e.borrowed = false)
    (hd : e.data = none) (hm : e.modified = false) :
    (∀ re : ReadError, loadSection1 fetch crc32 e.header = Except.error re →
        loadTbl (loadSection1 fetch crc32) t h = (RRes.error (CoreError.readErr re), t) ∧
        lookupSec (loadTbl (loadSection1 fetch crc32) t h).2.sections h = some e ∧
        e.data = none ∧ e.modified = false) ∧
    (∀ bytes : List Nat, fetch e.header = Except.ok bytes →
        e.header.flags &&& FLAG_CHECK_WEAK ≠ 0 →
        weakChecksum bytes ≠ e.header.chksum →
        loadTbl (loadSection1 fetch crc32) t h
          = (RRes.error (CoreError.readErr
              (ReadError.checksum (weakChecksum bytes) e.header.chksum)), t)) := by
  constructor
  · intro re hre
    have hres : loadTbl (loadSection1 fetch crc32) t h
        = (RRes.error (CoreError.readErr re), t) := by
      simp [loadTbl, hl, hb, hd, hre]
    exact ⟨hres, by rw [hres, hl], hd, hm⟩
  · intro bytes hbytes hweak hchk
    have hre : loadSection1 fetch crc32 e.header
        = Except.error (ReadError.checksum (weakChecksum bytes) e.header.chksum) := by
      simp [loadSection1, hweak, hbytes, hchk]
    simp [loadTbl, hl, hb, hd, hre]

/-- C5: while a live borrow of the payload cell of handle `h` exists,
`load(h)` fails with `SectionInUse` (wrapped in the core error) and
`open(h)` fails with `SectionInUse`, both leaving the table untouched;
and for any table, both `load` and `open` on a different handle `h'`
return the same result as without the live borrow on `h`, with the
resulting table differing only by that borrow. -/
theorem c5_second_borrow_section_in_use
    (loader : SectionHeader → Except ReadError InMemorySection)
    (t : SectionTable) (h : Nat) (e : SectionEntry)
    (hl : lookupSec t.sections h = some e) (hb : e.borrowed = true) :
    loadTbl loader t h = (RRes.error (CoreError.openErr OpenError.sectionInUse), t) ∧
    openTbl t h = (RRes.error OpenError.sectionInUse, t) ∧
    (∀ (t2 : SectionTable) (h' : Nat), h' ≠ h →
      (loadTbl loader (setBorrowed t2 h true) h').1 = (loadTbl loader t2 h').1 ∧
      (loadTbl loader (setBorrowed t2 h true) h').2 = setBorrowed (loadTbl loader t2 h').2 h true ∧
      (openTbl (setBorrowed t2 h true) h').1 = (openTbl t2 h').1 ∧
      (openTbl (setBorrowed t2 h true) h').2 = setBorrowed (openTbl t2 h').2 h true) := by
  refine ⟨by simp [loadTbl, hl, hb], by simp [openTbl, hl, hb], ?_⟩
  intro t2 h' hne
  have hlk : lookupSec (mapAtSec t2.sections h (fun e0 => { e0 with borrowed := true })) h'
      = lookupSec t2.sections h' :=
    lookupSec_mapAtSec_ne _ _ _ _ hne
  rcases hget : lookupSec t2.sections h' with _ | e'
  · simp [loadTbl, openTbl, hlk, hget, setBorrowed]
  · by_cases hbor : e'.borrowed
    · simp [loadTbl, openTbl, hlk, hget, hbor, setBorrowed]
    · rcases hdata : e'.data with _ | m
      · rcases hload : loader e'.header with re | m2
        · simp [loadTbl, openTbl, hlk, hget, hbor, hdata, hload, setBorrowed]
        · simp [loadTbl, openTbl, hlk, hget, hbor, hdata, hload, setBorrowed,
            mapAtSec_comm _ _ _ _ _ hne]
      · simp [loadTbl, openTbl, hlk, hget, hbor, hdata, setBorrowed,
          mapAtSec_comm _ _ _ _ _ hne]

/-- C8: `load` on an entry whose payload is already materialized consults
the backend loader in no way (the result is the same for any two
loaders), succeeds, and only sets the entry's modified flag (plus the
borrow for the returned `RefMut`): the cached buffer — contents, seek
position and all — and every other field of the entry are unchanged. -/
theorem c8_load_cached_no_backend_read
    (t : SectionTable) (h : Nat) (e : SectionEntry) (m : InMemorySection)
    (hl : lookupSec t.sections h = some e) (hb : e.borrowed = false)
    (hd : e.data = some m)
    (loader1 loader2 : SectionHeader → Except ReadError InMemorySection) :
    loadTbl loader1 t h = loadTbl loader2 t h ∧
    loadTbl loader1 t h = (RRes.ok (),
      { t with sections :=
          mapAtSec t.sections h (fun e0 => { e0 with modified := true, borrowed := true }) }) ∧
    lookupSec (loadTbl loader1 t h).2.sections h
      = some { e with modified := true, borrowed := true } := by
  have hres : loadTbl loader1 t h = (RRes.ok (),
      { t with sections :=
          mapAtSec t.sections h (fun e0 => { e0 with modified := true, borrowed := true }) }) := by
    simp [loadTbl, hl, hb, hd]
  have hres2 : loadTbl loader2 t h = (RRes.ok (),
      { t with sections :=
          mapAtSec t.sections h (fun e0 => { e0 with modified := true, borrowed := true }) }) := by
    simp [loadTbl, hl, hb, hd]
  refine ⟨by rw [hres, hres2], hres, ?_⟩
  rw [hres]
  simp [lookupSec_mapAtSec_eq, hl]

/-- A weak-checksummed header whose stored checksum (7) does not match the
payload `[1, 2, 3]` (weak sum 6). -/
def wHeader : SectionHeader :=
  { pointer := 0, csize := 0, size := 3, chksum := 7, ty := 1, flags := FLAG_CHECK_WEAK }

/-- A two-entry table of unloaded, unborrowed entries at handles 0 and 1. -/
def tblTwo : SectionTable :=
  { sections := [(0, decodedEntry wHeader 0), (1, decodedEntry wHeader 1)]
    count := 2
    modified := false
    next_handle := 2 }

/-- Witness for C4 at a concrete input: the payload `[1, 2, 3]` fails the
weak checksum of `wHeader`, so `load` returns the `Checksum` error and the
table — entry still unloaded and unmodified — is unchanged. -/
theorem c4_witness :
    loadTbl (loadSection1 (fun _ => Except.ok [1, 2, 3]) (fun _ => 0)) tblTwo 0
      = (RRes.error (CoreError.readErr
          (ReadError.checksum (weakChecksum [1, 2, 3]) (decodedEntry wHeader 0).header.chksum)),
         tblTwo) :=
  (c4_load_error_leaves_section_unloaded (fun _ => Except.ok [1, 2, 3]) (fun _ => 0)
    tblTwo 0 (decodedEntry wHeader 0) rfl rfl rfl rfl).2
    [1, 2, 3] rfl (by decide) (by decide)

/-- The two-entry table with the entry at handle 0 carrying a live borrow. -/
def tblBorrowed : SectionTable :=
  { sections := [(0, { decodedEntry wHeader 0 with borrowed := true }), (1, decodedEntry wHeader 1)]
    count := 2
    modified := false
    next_handle := 2 }

/-- Witness for C5 at a concrete input: with a live borrow on handle 0,
`load(0)` and `open(0)` both fail with `SectionInUse` leaving the table
unchanged, while `load` on the distinct handle 1 is unaffected by the
borrow. -/
theorem c5_witness :
    loadTbl (fun _ => Except.error ReadError.io) tblBorrowed 0
      = (RRes.error (CoreError.openErr OpenError.sectionInUse), tblBorrowed) ∧
    openTbl tblBorrowed 0 = (RRes.error OpenError.sectionInUse, tblBorrowed) ∧
    (loadTbl (fun _ => Except.error ReadError.io) (setBorrowed tblTwo 0 true) 1).1
      = (loadTbl (fun _ => Except.error ReadError.io) tblTwo 1).1 :=
  ⟨(c5_second_borrow_section_in_use (fun _ => Except.error ReadError.io) tblBorrowed 0
      { decodedEntry wHeader 0 with borrowed := true } rfl rfl).1,
   (c5_second_borrow_section_in_use (fun _ => Except.error ReadError.io) tblBorrowed 0
      { decodedEntry wHeader 0 with borrowed := true } rfl rfl).2.1,
   ((c5_second_borrow_section_in_use (fun _ => Except.error ReadError.io) tblBorrowed 0
      { decodedEntry wHeader 0 with borrowed := true } rfl rfl).2.2 tblTwo 1 (by decide)).1⟩

/-- A one-entry table whose section payload is already materialized with
the byte `[9]`. -/
def tblLoaded : SectionTable :=
  { sections := [(0, { decodedEntry wHeader 0 with data := some (memOfBytes [9]) })]
    count := 1
    modified := false
    next_handle := 1 }

/-- Witness for C8 at a concrete input: two very different loaders (one
always failing, one returning an empty buffer) give the same `load`
result on the already-materialized entry, and the entry afterwards still
holds the cached buffer `[9]` at position 0 with only `modified` (and the
borrow) set. -/
theorem c8_witness :
    loadTbl (fun _ => Except.error ReadError.io) tblLoaded 0
      = loadTbl (fun _ => Except.ok (memOfBytes [])) tblLoaded 0 ∧
    lookupSec (loadTbl (fun _ => Except.error ReadError.io) tblLoaded 0).2.sections 0
      = some { { decodedEntry wHeader 0 with data := some (memOfBytes [9]) } with
                modified := true, borrowed := true } :=
  ⟨(c8_load_cached_no_backend_read tblLoaded 0
      { decodedEntry wHeader 0 with data := some (memOfBytes [9]) } (memOfBytes [9])
      rfl rfl rfl (fun _ => Except.error ReadError.io) (fun _ => Except.ok (memOfBytes []))).1,
   (c8_load_cached_no_backend_read tblLoaded 0
      { decodedEntry wHeader 0 with data := some (memOfBytes [9]) } (memOfBytes [9])
      rfl rfl rfl (fun _ => Except.error ReadError.io) (fun _ => Except.ok (memOfBytes []))).2.2⟩

/-! ## Claim C10: the legacy decoder rejects Zlib and CRC32 -/

theorem and_flag_zlib (n : Nat) :
    n &&& FLAG_COMPRESS_ZLIB = 0 ∨ n &&& FLAG_COMPRESS_ZLIB = FLAG_COMPRESS_ZLIB := by
  have h : FLAG_COMPRESS_ZLIB = 2 ^ 3 := rfl
  rw [h, Nat.and_two_pow]
  cases Nat.testBit n 3 <;> simp

theorem and_flag_crc32 (n : Nat) :
    n &&& FLAG_CHECK_CRC32 = 0 ∨ n &&& FLAG_CHECK_CRC32 = FLAG_CHECK_CRC32 := by
  have h : FLAG_CHECK_CRC32 = 2 ^ 1 := rfl
  rw [h, Nat.and_two_pow]
  cases Nat.testBit n 1 <;> simp

/-- Every header kept by a successful run of the legacy header-table loop
has the Zlib and CRC32 bits clear. -/
theorem legacyGo_ok_flags :
    ∀ (n : Nat) (records : List (Nat × SectionHeader)) (acc accF : Nat)
      (hs : List SectionHeader),
      legacyReadSHTGo n records acc = RRes.ok (accF, hs) →
      ∀ hdr ∈ hs, hdr.flags &&& FLAG_COMPRESS_ZLIB = 0 ∧ hdr.flags &&& FLAG_CHECK_CRC32 = 0 := by
  intro n
  induction n with
  | zero =>
      intro records acc accF hs h
      simp only [legacyReadSHTGo] at h
      cases h
      intro hdr hmem
      simp at hmem
  | succ m ih =>
      intro records acc accF hs h
      cases records with
      | nil => simp [legacyReadSHTGo] at h
      | cons r rest =>
          rcases r with ⟨chk, hdr0⟩
          simp only [legacyReadSHTGo] at h
          split at h
          · simp at h
          · split at h
            · simp at h
            · rename_i hz hc
              split at h
              · simp at h
              · rename_i acc2 hadd
                split at h
                · rename_i aF hs0 hrec
                  simp only [RRes.ok.injEq, Prod.mk.injEq] at h
                  rcases h with ⟨h1, h2⟩
                  intro hdr hmem
                  rw [← h2] at hmem
                  rcases List.mem_cons.mp hmem with hmem | hmem
                  · subst hmem
                    constructor
                    · rcases and_flag_zlib hdr.flags with h0 | h0
                      · exact h0
                      · exact absurd h0 hz
                    · rcases and_flag_crc32 hdr.flags with h0 | h0
                      · exact h0
                      · exact absurd h0 hc
                  · exact ih rest acc2 aF hs0 hrec hdr hmem
                · simp at h
                · simp at h

/-- Whenever one of the records the legacy loop will consume carries the
Zlib or the CRC32 flag (and the accumulation does not overflow first),
the loop fails with the matching `Unsupported` error. -/
theorem legacyGo_bad_flag :
    ∀ (n : Nat) (records : List (Nat × SectionHeader)) (acc : Nat),
      acc + sumChk (records.take n) < U32MOD →
      (∃ r ∈ records.take n,
          r.2.flags &&& FLAG_COMPRESS_ZLIB = FLAG_COMPRESS_ZLIB ∨
          r.2.flags &&& FLAG_CHECK_CRC32 = FLAG_CHECK_CRC32) →
      legacyReadSHTGo n records acc = RRes.error (LegacyError.unsupported "FLAG_COMPRESS_ZLIB") ∨
      legacyReadSHTGo n records acc = RRes.error (LegacyError.unsupported "FLAG_CHECK_CRC32") := by
  intro n
  induction n with
  | zero =>
      intro records acc _ hbad
      simp at hbad
  | succ m ih =>
      intro records acc hov hbad
      cases records with
      | nil => simp at hbad
      | cons r rest =>
          rcases r with ⟨chk, hdr0⟩
          rw [List.take_succ_cons] at hov hbad
          by_cases hz : hdr0.flags &&& FLAG_COMPRESS_ZLIB = FLAG_COMPRESS_ZLIB
          · left
            simp [legacyReadSHTGo, hz]
          · by_cases hc : hdr0.flags &&& FLAG_CHECK_CRC32 = FLAG_CHECK_CRC32
            · right
              simp [legacyReadSHTGo, hz, hc]
            · rw [sumChk_cons] at hov
              have hadd : checkedAddU32 acc chk = some (acc + chk) := by
                unfold checkedAddU32
                rw [if_pos (by omega)]
              have hbad2 : ∃ r ∈ rest.take m,
                  r.2.flags &&& FLAG_COMPRESS_ZLIB = FLAG_COMPRESS_ZLIB ∨
                  r.2.flags &&& FLAG_CHECK_CRC32 = FLAG_CHECK_CRC32 := by
                rcases hbad with ⟨r, hmem, hflag⟩
                rcases List.mem_cons.mp hmem with hhead | htail
                · subst hhead
                  rcases hflag with hflag | hflag
                  · exact absurd hflag hz
                  · exact absurd hflag hc
                · exact ⟨r, htail, hflag⟩
              rcases ih rest (acc + chk) (by omega) hbad2 with hrec | hrec
              · left
                simp [legacyReadSHTGo, hz, hc, hadd, hrec]
              · right
                simp [legacyReadSHTGo, hz, hc, hadd, hrec]

/-- C10: the legacy decoder refuses Zlib and CRC32 end to end.  (1) When
`Decoder::new` succeeds, every header it kept has both the
`FLAG_COMPRESS_ZLIB` and the `FLAG_CHECK_CRC32` bit clear.  (2) When any
header among the `section_num` records carries one of those flags (and
the checksum accumulation does not overflow first), construction fails
with `Unsupported("FLAG_COMPRESS_ZLIB")` or
`Unsupported("FLAG_CHECK_CRC32")`.  (3) The legacy `load_section` behind
`open_section` rejects a CRC32-flagged header outright, and (4) rejects a
Zlib-flagged header (one without the XZ bit, which takes precedence in
the dispatch and is excluded by the at-most-one-compression-flag format
invariant) — so a constructed legacy decoder only ever materializes
sections using at most XZ compression and the weak checksum. -/
theorem c10_legacy_unsupported_zlib_crc32 :
    (∀ (records : List (Nat × SectionHeader)) (mh : MainHeader) (checksum accF : Nat)
        (hs : List SectionHeader),
      legacyReadSHT records mh checksum = RRes.ok (accF, hs) →
      ∀ hdr ∈ hs, hdr.flags &&& FLAG_COMPRESS_ZLIB = 0 ∧ hdr.flags &&& FLAG_CHECK_CRC32 = 0) ∧
    (∀ (records : List (Nat × SectionHeader)) (mh : MainHeader) (checksum : Nat),
      checksum + sumChk (records.take mh.section_num) < U32MOD →
      (∃ r ∈ records.take mh.section_num,
          r.2.flags &&& FLAG_COMPRESS_ZLIB = FLAG_COMPRESS_ZLIB ∨
          r.2.flags &&& FLAG_CHECK_CRC32 = FLAG_CHECK_CRC32) →
      legacyReadSHT records mh checksum
          = RRes.error (LegacyError.unsupported "FLAG_COMPRESS_ZLIB") ∨
      legacyReadSHT records mh checksum
          = RRes.error (LegacyError.unsupported "FLAG_CHECK_CRC32")) ∧
    (∀ hdr : SectionHeader, hdr.flags &&& FLAG_CHECK_CRC32 ≠ 0 →
      legacyLoadSectionPlan hdr = Except.error (LegacyError.unsupported "FLAG_CHECK_CRC32")) ∧
    (∀ hdr : SectionHeader, hdr.flags &&& FLAG_CHECK_CRC32 = 0 →
      hdr.flags &&& FLAG_COMPRESS_XZ = 0 → hdr.flags &&& FLAG_COMPRESS_ZLIB ≠ 0 →
      legacyLoadSectionPlan hdr = Except.error (LegacyError.unsupported "FLAG_COMPRESS_ZLIB")) := by
  refine ⟨?_, ?_, ?_, ?_⟩
  · intro records mh checksum accF hs h hdr hmem
    unfold legacyReadSHT at h
    rcases hgo : legacyReadSHTGo mh.section_num records checksum with _ | e | ⟨aF, hs0⟩ <;>
      rw [hgo] at h
    · simp at h
    · simp at h
    · dsimp only at h
      by_cases hne : aF ≠ mh.chksum
      · rw [if_pos hne] at h
        simp at h
      · rw [if_neg hne] at h
        simp only [RRes.ok.injEq, Prod.mk.injEq] at h
        rcases h with ⟨h1, h2⟩
        exact legacyGo_ok_flags mh.section_num records checksum aF hs0 hgo hdr (h2 ▸ hmem)
  · intro records mh checksum hov hbad
    rcases legacyGo_bad_flag mh.section_num records checksum hov hbad with hgo | hgo
    · left
      unfold legacyReadSHT
      rw [hgo]
    · right
      unfold legacyReadSHT
      rw [hgo]
  · intro hdr hc
    simp [legacyLoadSectionPlan, hc]
  · intro hdr hc hx hz
    simp [legacyLoadSectionPlan, hc, hx, hz]

/-- Witness for C10 at concrete inputs: a single-record file whose header
is Zlib-flagged is rejected at construction with one of the two
`Unsupported` errors, and the legacy `load_section` rejects the same
header. -/
theorem c10_witness :
    (legacyReadSHT [(0, zlibHeader)] { section_num := 1, chksum := 0 } 0
        = RRes.error (LegacyError.unsupported "FLAG_COMPRESS_ZLIB") ∨
     legacyReadSHT [(0, zlibHeader)] { section_num := 1, chksum := 0 } 0
        = RRes.error (LegacyError.unsupported "FLAG_CHECK_CRC32")) ∧
    legacyLoadSectionPlan zlibHeader = Except.error (LegacyError.unsupported "FLAG_COMPRESS_ZLIB") :=
  ⟨(c10_legacy_unsupported_zlib_crc32.2.1 [(0, zlibHeader)] { section_num := 1, chksum := 0 } 0
      (by decide) ⟨(0, zlibHeader), by decide, Or.inl (by decide)⟩),
   c10_legacy_unsupported_zlib_crc32.2.2.2 zlibHeader (by decide) (by decide) (by decide)⟩

/-! ## Claim C3: density of the index multiset under create / remove -/

theorem insertSec_append (l : List (Nat × SectionEntry)) (k : Nat) (e : SectionEntry)
    (hk : ∀ p ∈ l, p.1 < k) : insertSec l k e = l ++ [(k, e)] := by
  induction l with
  | nil => rfl
  | cons p rest ih =>
      rcases p with ⟨k0, e0⟩
      have h0 : k0 < k := hk (k0, e0) (List.mem_cons_self _ _)
      simp only [insertSec]
      rw [if_neg (by omega), if_neg (by omega), List.cons_append,
        ih (fun p hp => hk p (List.mem_cons_of_mem _ hp))]

theorem tblInv_empty : TblInv emptyTable :=
  ⟨List.Pairwise.nil, rfl, rfl, by intro p hp; simp [emptyTable] at hp⟩

theorem tblInv_create (t : SectionTable) (hdr : SectionHeader) (hinv : TblInv t) :
    TblInv (createTbl t hdr).2 := by
  obtain ⟨hpw, hidx, hcnt, hkey⟩ := hinv
  simp only [createTbl]
  rw [insertSec_append _ _ _ (fun p hp => hkey p hp)]
  refine ⟨?_, ?_, ?_, ?_⟩
  · rw [List.pairwise_append]
    refine ⟨hpw, List.pairwise_singleton _ _, ?_⟩
    intro a ha b hb
    simp only [List.mem_singleton] at hb
    subst hb
    exact hkey a ha
  · rw [List.map_append, hidx]
    simp [List.length_append, hcnt, List.range_succ]
  · simp only [List.length_append, List.length_singleton]
    omega
  · intro p hp
    show p.1 < t.next_handle + 1
    rcases List.mem_append.mp hp with hp | hp
    · have := hkey p hp
      omega
    · simp only [List.mem_singleton] at hp
      subst hp
      omega

theorem lookupSec_split (l : List (Nat × SectionEntry)) (h : Nat) (e : SectionEntry)
    (hpw : List.Pairwise (fun a b => a.1 < b.1) l) (hl : lookupSec l h = some e) :
    ∃ l1 l2, l = l1 ++ (h, e) :: l2 ∧ (∀ p ∈ l1, p.1 < h) ∧ (∀ p ∈ l2, h < p.1) := by
  induction l with
  | nil => simp [lookupSec] at hl
  | cons p rest ih =>
      rcases p with ⟨k, e0⟩
      rw [List.pairwise_cons] at hpw
      by_cases hk : k = h
      · subst hk
        simp only [lookupSec, if_pos] at hl
        simp only [Option.some.injEq] at hl
        subst hl
        refine ⟨[], rest, rfl, by simp, ?_⟩
        intro p hp
        exact hpw.1 p hp
      · simp only [lookupSec, if_neg hk] at hl
        rcases ih hpw.2 hl with ⟨l1, l2, hsplit, h1, h2⟩
        refine ⟨(k, e0) :: l1, l2, by simp [hsplit], ?_, h2⟩
        intro p hp
        rcases List.mem_cons.mp hp with hp | hp
        · subst hp
          have hmem : (h, e) ∈ rest := by
            rw [hsplit]
            exact List.mem_append_right _ (List.mem_cons_self _ _)
          exact hpw.1 _ hmem
        · exact h1 p hp

theorem eraseSec_append (l1 l2 : List (Nat × SectionEntry)) (h : Nat) (e : SectionEntry)
    (hne : ∀ p ∈ l1, p.1 ≠ h) : eraseSec (l1 ++ (h, e) :: l2) h = l1 ++ l2 := by
  induction l1 with
  | nil => simp [eraseSec]
  | cons p rest ih =>
      rcases p with ⟨k, e0⟩
      have hkh : k ≠ h := hne (k, e0) (List.mem_cons_self _ _)
      simp only [List.cons_append, eraseSec, if_neg hkh, List.append_eq]
      rw [ih (fun p hp => hne p (List.mem_cons_of_mem _ hp))]

theorem decIndicesFrom_append_some (l1 l2 l2' : List (Nat × SectionEntry)) (h : Nat)
    (h1 : ∀ p ∈ l1, p.1 < h) (h2 : decIndicesFrom l2 h = some l2') :
    decIndicesFrom (l1 ++ l2) h = some (l1 ++ l2') := by
  induction l1 with
  | nil => simpa using h2
  | cons p rest ih =>
      rcases p with ⟨k, e⟩
      have hk : k < h := h1 (k, e) (List.mem_cons_self _ _)
      simp only [List.cons_append, decIndicesFrom, if_neg (by omega : ¬ h ≤ k), List.append_eq]
      rw [ih (fun p hp => h1 p (List.mem_cons_of_mem _ hp))]
      rfl

theorem decIndicesFrom_shift (l2 : List (Nat × SectionEntry)) (h : Nat) :
    ∀ s : Nat, (∀ p ∈ l2, h ≤ p.1) →
      l2.map (fun p => p.2.index) = List.range' (s + 1) l2.length →
      ∃ l2', decIndicesFrom l2 h = some l2' ∧
        l2'.map (fun p => p.2.index) = List.range' s l2.length ∧
        l2'.map Prod.fst = l2.map Prod.fst := by
  induction l2 with
  | nil => intro s _ _; exact ⟨[], rfl, by simp, rfl⟩
  | cons p rest ih =>
      rcases p with ⟨k, e⟩
      intro s hk hidx
      rw [List.length_cons, List.range'_succ] at hidx
      simp only [List.map_cons, List.cons.injEq] at hidx
      obtain ⟨hidx1, hidx2⟩ := hidx
      have hkk : h ≤ k := hk (k, e) (List.mem_cons_self _ _)
      have hidx2' : rest.map (fun p => p.2.index) = List.range' ((s + 1) + 1) rest.length := by
        rw [hidx2]
      rcases ih (s + 1) (fun p hp => hk p (List.mem_cons_of_mem _ hp)) hidx2' with
        ⟨rest', hrest, hmap, hfst⟩
      refine ⟨(k, { e with index := e.index - 1 }) :: rest', ?_, ?_, ?_⟩
      · have hnz : ¬ e.index = 0 := by omega
        simp [decIndicesFrom, hkk, hrest, hnz]
      · simp only [List.map_cons, hmap, List.length_cons, List.range'_succ]
        rw [show e.index - 1 = s from by omega]
      · simp only [List.map_cons, hfst]

/-- Removing a handle that is present in a table satisfying the invariant
succeeds (no panic) and preserves the invariant. -/
theorem removeTbl_some (t : SectionTable) (h : Nat) (e : SectionEntry)
    (hinv : TblInv t) (hl : lookupSec t.sections h = some e) :
    ∃ t', removeTbl t h = some t' ∧ TblInv t' := by
  obtain ⟨hpw, hidx, hcnt, hkey⟩ := hinv
  obtain ⟨l1, l2, hsplit, hlt, hgt⟩ := lookupSec_split t.sections h e hpw hl
  have hlen : t.sections.length = l1.length + (l2.length + 1) := by
    rw [hsplit]
    simp [List.length_append]
  -- split the dense index list at the removed entry
  rw [hsplit] at hidx
  simp only [List.map_append, List.map_cons, List.length_append, List.length_cons] at hidx
  have hr : List.range (l1.length + (l2.length + 1))
      = List.range' 0 l1.length ++ List.range' l1.length (l2.length + 1) := by
    have happ := List.range'_append_1 0 l1.length (l2.length + 1)
    rw [List.range_eq_range']
    rw [show l1.length + (l2.length + 1) = (l2.length + 1) + l1.length from by omega, ← happ]
    simp
  rw [hr] at hidx
  have hlen1 : (l1.map (fun p => p.2.index)).length = (List.range' 0 l1.length).length := by
    simp
  have h1 : l1.map (fun p => p.2.index) = List.range' 0 l1.length :=
    List.append_inj_left hidx hlen1
  have h2 : e.index :: l2.map (fun p => p.2.index)
      = List.range' l1.length (l2.length + 1) :=
    List.append_inj_right hidx hlen1
  rw [List.range'_succ] at h2
  simp only [List.cons.injEq] at h2
  obtain ⟨hidxe, hidx2⟩ := h2
  -- run the index-shift pass
  rcases decIndicesFrom_shift l2 h l1.length
      (fun p hp => Nat.le_of_lt (hgt p hp)) hidx2 with ⟨l2', hdec2, hmap2, hfst2⟩
  have hlen2 : l2'.length = l2.length := by
    have := congrArg List.length hfst2
    simpa using this
  have herase : eraseSec t.sections h = l1 ++ l2 := by
    rw [hsplit]
    exact eraseSec_append l1 l2 h e (fun p hp => Nat.ne_of_lt (hlt p hp))
  have hdec : decIndicesFrom (eraseSec t.sections h) h = some (l1 ++ l2') := by
    rw [herase]
    exact decIndicesFrom_append_some l1 l2 l2' h hlt hdec2
  have hcount : ¬ t.count = 0 := by
    rw [hcnt, hlen]
    omega
  refine ⟨{ sections := l1 ++ l2', count := t.count - 1, modified := true,
            next_handle := t.next_handle }, ?_, ?_⟩
  · simp only [removeTbl, if_neg hcount, hdec]
    rfl
  -- the invariant for the shrunk table
  have hsub : (l1 ++ l2).Sublist t.sections := by
    rw [hsplit]
    exact List.Sublist.append_left (List.sublist_cons_self (h, e) l2) l1
  refine ⟨?_, ?_, ?_, ?_⟩
  · -- keys still strictly increase: same keys as the sublist l1 ++ l2
    have hp12 : List.Pairwise (fun a b => a.1 < b.1) (l1 ++ l2) :=
      List.Pairwise.sublist hsub hpw
    have hmapped : List.Pairwise (fun a b : Nat => a < b) ((l1 ++ l2').map Prod.fst) := by
      rw [List.map_append, hfst2, ← List.map_append]
      exact List.pairwise_map.mpr hp12
    have := List.pairwise_map.mp hmapped
    exact this
  · -- indices are again exactly 0, …, len-1
    rw [List.map_append, h1, hmap2, List.length_append, hlen2]
    have happ := List.range'_append_1 0 l1.length l2.length
    simp only [Nat.zero_add] at happ
    rw [happ, List.range_eq_range']
    rw [show l1.length + l2.length = l2.length + l1.length from by omega]
  · show t.count - 1 = (l1 ++ l2').length
    rw [List.length_append, hlen2, hcnt, hlen]
    omega
  · intro p hp
    show p.1 < t.next_handle
    have hmem : p.1 ∈ (l1 ++ l2').map Prod.fst := List.mem_map_of_mem _ hp
    rw [List.map_append, hfst2, ← List.map_append] at hmem
    have hmem2 : p.1 ∈ t.sections.map Prod.fst := (hsub.map Prod.fst).subset hmem
    obtain ⟨q, hq, hq2⟩ := List.mem_map.mp hmem2
    rw [← hq2]
    exact hkey q hq

/-- A table populated by a successful decoder run satisfies the
invariant. -/
theorem tblInv_decoded (records : List (Nat × SectionHeader)) (mh : MainHeader)
    (checksum hdl : Nat) (entries : List (Nat × SectionEntry))
    (hok : readSectionHeaderTable records mh checksum = RRes.ok (hdl, entries)) :
    TblInv (decodedTable hdl entries) := by
  unfold readSectionHeaderTable at hok
  rcases hgo : readSHTGo mh.section_num records checksum 0 with _ | e | ⟨acc, hdl0, es⟩ <;>
    rw [hgo] at hok
  · simp at hok
  · simp at hok
  · dsimp only at hok
    by_cases hne : acc ≠ mh.chksum
    · rw [if_pos hne] at hok
      simp at hok
    · rw [if_neg hne] at hok
      simp only [RRes.ok.injEq, Prod.mk.injEq] at hok
      obtain ⟨hh, he⟩ := hok
      obtain ⟨hes, hhdl, hn⟩ :=
        readSHTGo_ok_inv mh.section_num records checksum 0 acc hdl0 es hgo
      have hrs : (records.take mh.section_num).length = mh.section_num :=
        List.length_take_of_le hn
      have hentries : entries = buildEntries (records.take mh.section_num) 0 := by
        rw [← he, hes]
      have hhdl2 : hdl = mh.section_num := by omega
      have hlen : entries.length = mh.section_num := by
        rw [hentries, buildEntries_length, hrs]
      refine ⟨?_, ?_, ?_, ?_⟩
      · show List.Pairwise (fun a b => a.1 < b.1) entries
        apply List.pairwise_map.mp
        rw [show entries.map Prod.fst = List.range' 0 entries.length from by
          rw [hentries, buildEntries_map_fst, buildEntries_length]]
        exact List.pairwise_lt_range' 0 entries.length
      · show entries.map (fun p => p.2.index) = List.range entries.length
        rw [hentries, buildEntries_map_index, List.range_eq_range', buildEntries_length]
      · show hdl = entries.length
        omega
      · intro p hp
        show p.1 < hdl
        have hmem : p.1 ∈ entries.map Prod.fst := List.mem_map_of_mem _ hp
        rw [hentries, buildEntries_map_fst, hrs] at hmem
        rw [List.mem_range'_1] at hmem
        omega

/-- Running a valid create/remove sequence from an invariant-satisfying
table never panics and preserves the invariant. -/
theorem seqOk_run : ∀ (ops : List TOp) (t : SectionTable), TblInv t → SeqOk t ops = true →
    ∃ t', applySeq t ops = some t' ∧ TblInv t' := by
  intro ops
  induction ops with
  | nil => intro t hinv _; exact ⟨t, rfl, hinv⟩
  | cons op ops ih =>
      intro t hinv hok
      cases op with
      | create hdr =>
          simp only [SeqOk] at hok
          rcases ih (createTbl t hdr).2 (tblInv_create t hdr hinv) hok with ⟨t', h1, h2⟩
          refine ⟨t', ?_, h2⟩
          simpa [applySeq, applyOp] using h1
      | remove h =>
          simp only [SeqOk, Bool.and_eq_true] at hok
          obtain ⟨hsome, hrest⟩ := hok
          rw [Option.isSome_iff_exists] at hsome
          obtain ⟨e, he⟩ := hsome
          obtain ⟨t2, ht2, hinv2⟩ := removeTbl_some t h e hinv he
          rw [ht2] at hrest
          rcases ih t2 hinv2 hrest with ⟨t', h1, h2⟩
          refine ⟨t', ?_, h2⟩
          simp only [applySeq, applyOp, ht2]
          exact h1

/-- C3: starting from the empty table or from any freshly decoded table,
after any sequence of `create`/`remove` operations in which every
`remove` names a handle present at that point, no step panics and the
final table's multiset of entry `index` values is exactly
`{0, …, count − 1}`, with `count` equal to the number of entries. -/
theorem c3_index_multiset_dense (start : SectionTable)
    (hstart : start = emptyTable ∨ IsDecodedTable start)
    (ops : List TOp) (hops : SeqOk start ops = true) :
    ∃ t', applySeq start ops = some t' ∧
      (↑(t'.sections.map (fun p => p.2.index)) : Multiset Nat)
        = (↑(List.range t'.count) : Multiset Nat) ∧
      t'.count = t'.sections.length := by
  have hinv : TblInv start := by
    rcases hstart with rfl | ⟨records, mh, checksum, hdl, entries, hok, rfl⟩
    · exact tblInv_empty
    · exact tblInv_decoded records mh checksum hdl entries hok
  rcases seqOk_run ops start hinv hops with ⟨t', h1, hpw, hidx, hcnt, hkey⟩
  refine ⟨t', h1, ?_, hcnt⟩
  rw [hidx, hcnt]

/-- A concrete valid sequence: create two sections, then remove the first
handle. -/
def c3DemoOps : List TOp := [TOp.create zlibHeader, TOp.create wHeader, TOp.remove 0]

/-- Witness for C3 at a concrete input: from the empty table, create two
sections and remove the first; the run succeeds and the index multiset is
dense. -/
theorem c3_witness :
    ∃ t', applySeq emptyTable c3DemoOps = some t' ∧
      (↑(t'.sections.map (fun p => p.2.index)) : Multiset Nat)
        = (↑(List.range t'.count) : Multiset Nat) ∧
      t'.count = t'.sections.length :=
  c3_index_multiset_dense emptyTable (Or.inl rfl) c3DemoOps (by decide)
